import Mathlib

/-!
Verification of the dataquality token/span analytics engine.

The development shallowly embeds the Python sources:
* `dataquality/utils/spacy_integration.py` — logit masking
  (`convert_spacy_ner_logits_to_valid_logits`);
* `dataquality/schemas/ner.py` — `NERErrorType`, `TaggingSchema`, `NERColumns`;
* `dataquality/loggers/model_logger/text_classification.py` —
  `GalileoModelLoggerAttributes`, attribute validation and `_get_data_dict`;
* the seq2seq token-probability extractor and batched generation driver,
  modelled from the specification (their implementation modules are not part
  of the sources at hand, only their tests).

Numpy float arrays are embedded as `List ℚ`: the algorithms under study are
comparison-based (sorting, masking, argmax) and `ℚ` gives exact decidable
comparisons.
-/

namespace DataQuality

/-! ### Logit masking (`dataquality/utils/spacy_integration.py`) -/

/-- Comparison used to model `np.argsort` on the logit vector `v`: index `i`
comes before index `j` in the ascending argsort if its logit is smaller, with
a deterministic tie-break on the index. Out-of-range reads default to `0`,
which never occurs for the indices actually sorted (`List.range v.length`). -/
def ascLe (v : List ℚ) (i j : Nat) : Prop :=
  v.getD i 0 < v.getD j 0 ∨ (v.getD i 0 = v.getD j 0 ∧ i ≤ j)

instance (v : List ℚ) : DecidableRel (ascLe v) := fun i j => by
  unfold ascLe; infer_instance

instance (v : List ℚ) : IsTotal Nat (ascLe v) where
  total i j := by
    unfold ascLe
    rcases lt_trichotomy (v.getD i 0) (v.getD j 0) with h | h | h
    · exact Or.inl (Or.inl h)
    · rcases Nat.le_total i j with hij | hij
      · exact Or.inl (Or.inr ⟨h, hij⟩)
      · exact Or.inr (Or.inr ⟨h.symm, hij⟩)
    · exact Or.inr (Or.inl h)

instance (v : List ℚ) : IsTrans Nat (ascLe v) where
  trans a b c hab hbc := by
    unfold ascLe at hab hbc ⊢
    rcases hab with h1 | ⟨h1, h1'⟩ <;> rcases hbc with h2 | ⟨h2, h2'⟩
    · exact Or.inl (h1.trans h2)
    · exact Or.inl (lt_of_lt_of_eq h1 h2)
    · exact Or.inl (lt_of_eq_of_lt h1 h2)
    · exact Or.inr ⟨h1.trans h2, h1'.trans h2'⟩

/-- `np.argsort(logits)`: the indices `0 .. len(logits)-1` sorted by ascending
logit value. -/
def argsortAsc (v : List ℚ) : List Nat :=
  (List.range v.length).insertionSort (ascLe v)

/-- `np.flip(np.argsort(logits))` from the source: the indices sorted in
descending order of logit value. -/
def descOrder (v : List ℚ) : List Nat :=
  (argsortAsc v).reverse

/-- The position ("descending rank") of index `i` in the descending ordering
of `v`'s indices. -/
def rankDesc (v : List ℚ) (i : Nat) : Nat :=
  (descOrder v).indexOf i

/-- Failure mode of the logit-masking operation. In the Python source the
out-of-range branch surfaces as the indexing failure of
`np.where(argsorted_sample_logits == pred)[0][0]` on an empty match; the
specification names this failure `InvalidPredictionError`. -/
inductive SpacyMaskError where
  | invalidPredictionError
deriving DecidableEq

/-- `convert_spacy_ner_logits_to_valid_logits(logits, pred)` from
`dataquality/utils/spacy_integration.py`:

* `argsorted` is `np.flip(np.argsort(logits))` (descending order of indices);
* if `pred` does not occur in it (`pred` is not a valid index; a negative
  Python `pred` also never matches, so `Nat` loses no failing inputs), the
  `[0][0]` indexing fails;
* otherwise `valid_logit_indices` is the suffix of `argsorted` from `pred`'s
  position, `zero_out_mask` is true exactly off that suffix, and every masked
  entry is set to `0` while entries at valid indices keep their logit. -/
def convert_spacy_ner_logits_to_valid_logits (logits : List ℚ) (pred : Nat) :
    Except SpacyMaskError (List ℚ) :=
  let argsorted := descOrder logits
  if pred ∈ argsorted then
    let validIdx := argsorted.drop (argsorted.indexOf pred)
    Except.ok ((List.range logits.length).map fun i =>
      if i ∈ validIdx then logits.getD i 0 else 0)
  else
    Except.error SpacyMaskError.invalidPredictionError

/-- Contents of the caller's numpy buffer after the call: the source mutates
its argument in place (`logits[zero_out_mask] = 0`) and returns that same
array, so on success the buffer holds the returned vector; on the failing
branch the mutation statement is never reached and the buffer is unchanged. -/
def logitsBufferAfterCall (logits : List ℚ) (pred : Nat) : List ℚ :=
  match convert_spacy_ner_logits_to_valid_logits logits pred with
  | Except.ok r => r
  | Except.error _ => logits

/-- The specification's description of the masking algorithm (section 4.2,
scenario E), stated against the descending ordering: every index whose
position in the descending ordering is strictly before the predicted index's
position is zeroed; the predicted index and all later positions keep their
logit. -/
def specMaskedLogits (v : List ℚ) (p : Nat) : List ℚ :=
  (List.range v.length).map fun i =>
    if rankDesc v i < rankDesc v p then 0 else v.getD i 0

/-- `i` strictly precedes `j` in the descending ordering of `v`'s indices:
either `i`'s logit is larger, or the logits tie and `i` is the larger index
(the flip of a stable ascending argsort puts equal values in descending index
order). -/
def descBefore (v : List ℚ) (i j : Nat) : Prop :=
  v.getD j 0 < v.getD i 0 ∨ (v.getD i 0 = v.getD j 0 ∧ j < i)

instance (v : List ℚ) : DecidableRel (descBefore v) := fun i j => by
  unfold descBefore; infer_instance

/-! ### Token Probability Extractor (spec section 4.3) -/

/-- Per-row output of the Token Probability Extractor. -/
structure TokenProbRow where
  token_logprobs : List ℚ
  top_logprobs : List (List (String × ℚ))
deriving DecidableEq

/-- Modelled from the spec: the Token Probability Extractor (section 4.3); the
seq2seq model-logger module implementing it is not among the sources at hand
(only its test, `test_log_model_outputs_encoder_decoder`). For each position
`0 .. true_length - 1` of a row — with right padding these are the first
`true_length` positions, and `true_length` is the length of the row's true
token-id sequence — apply log-softmax over the vocabulary axis, extract the
log-probability at the true token id, and compute the top-K candidates.
Positions at or beyond `true_length` are dropped from the output. The numeric
log-softmax kernel and the decode-and-top-K step are parameters of the model:
the claim about this component concerns which positions are emitted, not the
transcendental arithmetic. -/
def extractTokenProbsRow (logSoftmax : List ℚ → List ℚ)
    (topK : List ℚ → List (String × ℚ))
    (rowLogits : List (List ℚ)) (tokenIds : List Nat) : TokenProbRow :=
  let trueLength := tokenIds.length
  { token_logprobs := (List.range trueLength).map fun pos =>
      (logSoftmax (rowLogits.getD pos [])).getD (tokenIds.getD pos 0) 0
    top_logprobs := (List.range trueLength).map fun pos =>
      topK (logSoftmax (rowLogits.getD pos [])) }

/-! ### Batched Generation Driver (spec section 4.4) -/

/-- Contiguous batches of size `B` (the last batch may be smaller), in input
order; `B = 0` yields no batches (the configured generation batch size is a
positive constant). -/
def chunkBatches {α : Type} (B : Nat) (l : List α) : List (List α) :=
  if hB : B = 0 then []
  else if hl : l.isEmpty then []
  else l.take B :: chunkBatches B (l.drop B)
termination_by l.length
decreasing_by
  have h0 : 0 < B := Nat.pos_of_ne_zero hB
  have h1 : 0 < l.length := by
    cases l with
    | nil => simp at hl
    | cons a t => simp
  simp only [List.length_drop]
  omega

/-- Modelled from the spec: the Batched Generation Driver (section 4.4;
`add_generated_output_to_df` / `generate_on_batch` are not among the sources
at hand, only their test `test_add_generated_output_to_df`). The driver
partitions the rows into contiguous batches of the configured batch size,
calls the generation capability once per batch, sequentially and in input
order, and concatenates the per-batch result rows in that same order. -/
def batchedGenerationDriver {α β : Type} (generateOnBatch : List α → List β)
    (B : Nat) (rows : List α) : List β :=
  ((chunkBatches B rows).map generateOnBatch).flatten

/-! ### Tagging schemes and NER error taxonomy (`dataquality/schemas/ner.py`) -/

/-- The `TaggingSchema` string enum: exactly the members `BIO`, `BILOU`,
`BIOES` (the `IOB2` / `IOB` / `BILOES` lines are commented out in the
source). -/
inductive TaggingSchema where
  | BIO
  | BILOU
  | BIOES
deriving DecidableEq

/-- The string value of each `TaggingSchema` member. -/
def TaggingSchema.value : TaggingSchema → String
  | TaggingSchema.BIO => "BIO"
  | TaggingSchema.BILOU => "BILOU"
  | TaggingSchema.BIOES => "BIOES"

/-- Failure mode of scheme lookup; the specification names it
`UnsupportedSchemeError`. -/
inductive SchemeError where
  | unsupportedSchemeError
deriving DecidableEq

/-- Modelled from the spec: lookup of a tagging scheme from its string value
(section 4.5's codec is not among the sources at hand; in the source the
boundary is the `TaggingSchema(...)` Enum value lookup of
`dataquality/schemas/ner.py`, which rejects any value outside the three
members). -/
def TaggingSchema.ofValue (s : String) : Except SchemeError TaggingSchema :=
  if s = "BIO" then Except.ok TaggingSchema.BIO
  else if s = "BILOU" then Except.ok TaggingSchema.BILOU
  else if s = "BIOES" then Except.ok TaggingSchema.BIOES
  else Except.error SchemeError.unsupportedSchemeError

/-- The `NERErrorType` string enum of `dataquality/schemas/ner.py`: exactly
the five taxonomy members; `none` carries the string value `"None"` and
denotes a correct, error-free prediction span. -/
inductive NERErrorType where
  | wrong_tag
  | missed_label
  | span_shift
  | ghost_span
  | none
deriving DecidableEq

/-- The string value of each `NERErrorType` member. -/
def NERErrorType.value : NERErrorType → String
  | NERErrorType.wrong_tag => "wrong_tag"
  | NERErrorType.missed_label => "missed_label"
  | NERErrorType.span_shift => "span_shift"
  | NERErrorType.ghost_span => "ghost_span"
  | NERErrorType.none => "None"

/-- A span error record, with one field per column of `NERColumns` in
`dataquality/schemas/ner.py`; its `galileo_error_type` field is drawn from
the `NERErrorType` taxonomy. -/
structure SpanErrorRecord where
  id : Nat
  sample_id : Nat
  split : String
  epoch : Nat
  is_gold : Bool
  is_pred : Bool
  span_start : Nat
  span_end : Nat
  gold : Option String
  pred : Option String
  data_error_potential : ℚ
  galileo_error_type : NERErrorType
  emb : List ℚ

/-! ### Text-classification model logger
(`dataquality/loggers/model_logger/text_classification.py`) -/

/-- `GalileoModelLoggerAttributes.get_valid()`: the values of the attribute
enum, in declaration order. -/
def get_valid_attributes : List String :=
  ["embs", "probs", "logits", "ids", "split", "epoch", "inference_name"]

/-- Failure mode of attribute assignment: Python's `AttributeError`. -/
inductive AttrSetError where
  | attributeError
deriving DecidableEq

/-- `TextClassificationModelLogger.__setattr__`: every attribute assignment on
the object — Python routes each one, at construction and afterwards, through
`__setattr__` — checks the key against `get_valid_attributes()` and raises
`AttributeError` on a miss; on a hit the assignment is performed by the base
`__setattr__`. The object state is embedded as an association list of
attribute bindings, most recent binding first. -/
def setattrTextClassification {V : Type} (state : List (String × V))
    (key : String) (value : V) : Except AttrSetError (List (String × V)) :=
  if key ∈ get_valid_attributes then Except.ok ((key, value) :: state)
  else Except.error AttrSetError.attributeError

/-- `np.argmax` on a 1-D vector: the index of the first occurrence of the
maximum value (later values replace the running best only when strictly
larger). -/
def npArgmax (l : List ℚ) : Nat :=
  (List.range l.length).foldl
    (fun best i => if l.getD best 0 < l.getD i 0 then i else best) 0

/-- One output record assembled by
`TextClassificationModelLogger._get_data_dict` (the fields that depend on the
row). -/
structure TCRecord where
  id : Nat
  epoch : Nat
  split : String
  emb : List ℚ
  prob : List ℚ
  pred : Nat
deriving DecidableEq

/-- The per-row body of `TextClassificationModelLogger._get_data_dict`: a
single-probability (binary) row is expanded to `[prob[0], 1 - prob[0]]` for
the `prob` field, while `pred` is `int(np.argmax(prob))` of the original
probability vector. -/
def tcDataRecord (record_id : Nat) (epoch : Nat) (split : String)
    (prob : List ℚ) (emb : List ℚ) : TCRecord :=
  { id := record_id
    epoch := epoch
    split := split
    emb := emb
    prob := if prob.length = 1 then [prob.getD 0 0, 1 - prob.getD 0 0] else prob
    pred := npArgmax prob }

/-- `TextClassificationModelLogger._get_data_dict`: one record per
`zip(self.ids, self.probs, self.embs)` row. -/
def tcGetDataDict (epoch : Nat) (split : String) (ids : List Nat)
    (probs : List (List ℚ)) (embs : List (List ℚ)) : List TCRecord :=
  (ids.zip (probs.zip embs)).map fun x => tcDataRecord x.1 epoch split x.2.1 x.2.2

/-! ## Lemmas about the descending ordering of indices -/

theorem argsortAsc_perm (v : List ℚ) : List.Perm (argsortAsc v) (List.range v.length) :=
  List.perm_insertionSort _ _

theorem descOrder_perm (v : List ℚ) : List.Perm (descOrder v) (List.range v.length) :=
  (List.reverse_perm _).trans (argsortAsc_perm v)

theorem mem_descOrder {v : List ℚ} {i : Nat} : i ∈ descOrder v ↔ i < v.length := by
  rw [(descOrder_perm v).mem_iff, List.mem_range]

theorem descOrder_nodup (v : List ℚ) : (descOrder v).Nodup :=
  ((descOrder_perm v).nodup_iff).mpr (List.nodup_range _)

theorem descOrder_sorted (v : List ℚ) :
    (descOrder v).Sorted (fun i j => ascLe v j i) := by
  have h := List.sorted_insertionSort (ascLe v) (List.range v.length)
  exact (List.pairwise_reverse).mpr h

theorem descOrder_sorted_values (v : List ℚ) :
    (descOrder v).Sorted (fun i j => v.getD j 0 ≤ v.getD i 0) := by
  refine List.Pairwise.imp ?_ (descOrder_sorted v)
  intro i j h
  rcases h with h | ⟨h, _⟩
  · exact le_of_lt h
  · exact le_of_eq h

theorem descBefore_irrefl (v : List ℚ) (i : Nat) : ¬ descBefore v i i := by
  unfold descBefore
  rintro (h | ⟨_, h⟩)
  · exact lt_irrefl _ h
  · exact Nat.lt_irrefl _ h

theorem descBefore_asymm {v : List ℚ} {i j : Nat}
    (h1 : descBefore v i j) (h2 : descBefore v j i) : False := by
  unfold descBefore at h1 h2
  rcases h1 with h1 | ⟨h1, h1'⟩ <;> rcases h2 with h2 | ⟨h2, h2'⟩
  · exact lt_irrefl _ (h1.trans h2)
  · rw [h2] at h1; exact lt_irrefl _ h1
  · rw [h1] at h2; exact lt_irrefl _ h2
  · exact Nat.lt_irrefl _ (h1'.trans h2')

theorem descBefore_of_rank_lt {v : List ℚ} {i j : Nat}
    (hi : i < v.length) (hj : j < v.length)
    (h : rankDesc v i < rankDesc v j) : descBefore v i j := by
  have hmi : i ∈ descOrder v := mem_descOrder.mpr hi
  have hmj : j ∈ descOrder v := mem_descOrder.mpr hj
  have hii : (descOrder v).indexOf i < (descOrder v).length :=
    List.indexOf_lt_length.mpr hmi
  have hjj : (descOrder v).indexOf j < (descOrder v).length :=
    List.indexOf_lt_length.mpr hmj
  have hrel := (descOrder_sorted v).rel_get_of_lt
    (a := ⟨(descOrder v).indexOf i, hii⟩) (b := ⟨(descOrder v).indexOf j, hjj⟩) h
  rw [List.indexOf_get, List.indexOf_get] at hrel
  have hne : i ≠ j := by
    intro he
    subst he
    exact Nat.lt_irrefl _ h
  unfold ascLe at hrel
  unfold descBefore
  rcases hrel with hr | ⟨hr, hr'⟩
  · exact Or.inl hr
  · refine Or.inr ⟨hr.symm, ?_⟩
    exact Nat.lt_of_le_of_ne hr' hne.symm

theorem rank_lt_rank_iff {v : List ℚ} {i j : Nat}
    (hi : i < v.length) (hj : j < v.length) :
    rankDesc v i < rankDesc v j ↔ descBefore v i j := by
  constructor
  · exact descBefore_of_rank_lt hi hj
  · intro h
    rcases Nat.lt_trichotomy (rankDesc v i) (rankDesc v j) with hlt | heq | hgt
    · exact hlt
    · exfalso
      have hii : (descOrder v).indexOf i < (descOrder v).length :=
        List.indexOf_lt_length.mpr (mem_descOrder.mpr hi)
      have hjj : (descOrder v).indexOf j < (descOrder v).length :=
        List.indexOf_lt_length.mpr (mem_descOrder.mpr hj)
      have hij : i = j := by
        have h1 : (descOrder v).get ⟨(descOrder v).indexOf i, hii⟩ = i :=
          List.indexOf_get hii
        have h2 : (descOrder v).get ⟨(descOrder v).indexOf j, hjj⟩ = j :=
          List.indexOf_get hjj
        rw [← h1, ← h2]
        congr 1
        exact Fin.ext heq
      subst hij
      exact descBefore_irrefl v i h
    · exact absurd (descBefore_of_rank_lt hj hi hgt) (fun hb => descBefore_asymm h hb)

theorem mem_drop_iff_indexOf {α : Type} [DecidableEq α] :
    ∀ (l : List α) (k : Nat) (a : α), l.Nodup → a ∈ l →
      (a ∈ l.drop k ↔ k ≤ l.indexOf a)
  | _, 0, a, _, ha => by simpa using ha
  | [], k + 1, a, _, ha => by simp at ha
  | b :: t, k + 1, a, hnd, ha => by
    rw [List.drop_succ_cons]
    by_cases hab : b = a
    · subst hab
      have hbt : b ∉ t := (List.nodup_cons.mp hnd).1
      rw [List.indexOf_cons_self]
      constructor
      · intro hmem
        exact absurd (List.mem_of_mem_drop hmem) hbt
      · omega
    · have ha' : a ∈ t := by
        rcases List.mem_cons.mp ha with h | h
        · exact absurd h.symm hab
        · exact h
      rw [List.indexOf_cons_ne _ hab,
        mem_drop_iff_indexOf t k a (List.nodup_cons.mp hnd).2 ha']
      omega

/-! ## The masking operation agrees with the spec's rank description -/

theorem convert_eq_spec {v : List ℚ} {p : Nat} (hp : p < v.length) :
    convert_spacy_ner_logits_to_valid_logits v p = Except.ok (specMaskedLogits v p) := by
  have hmem : p ∈ descOrder v := mem_descOrder.mpr hp
  unfold convert_spacy_ner_logits_to_valid_logits specMaskedLogits
  rw [if_pos hmem]
  simp only [Except.ok.injEq]
  apply List.map_congr_left
  intro i hi
  have hiv : i < v.length := List.mem_range.mp hi
  have hmi : i ∈ descOrder v := mem_descOrder.mpr hiv
  have hdrop : i ∈ (descOrder v).drop ((descOrder v).indexOf p) ↔
      (descOrder v).indexOf p ≤ (descOrder v).indexOf i :=
    mem_drop_iff_indexOf _ _ _ (descOrder_nodup v) hmi
  by_cases h : rankDesc v i < rankDesc v p
  · rw [if_pos h, if_neg]
    intro hm
    have := hdrop.mp hm
    unfold rankDesc at h
    omega
  · rw [if_neg h, if_pos]
    apply hdrop.mpr
    unfold rankDesc at h
    omega

theorem length_specMaskedLogits (v : List ℚ) (p : Nat) :
    (specMaskedLogits v p).length = v.length := by
  simp [specMaskedLogits]

theorem getD_specMaskedLogits {v : List ℚ} {p i : Nat} (hi : i < v.length) :
    (specMaskedLogits v p).getD i 0 =
      if rankDesc v i < rankDesc v p then 0 else v.getD i 0 := by
  unfold specMaskedLogits
  rw [List.getD_eq_getElem?_getD, List.getElem?_map, List.getElem?_range hi]
  rfl

theorem getD_specMasked_before {v : List ℚ} {p i : Nat}
    (hp : p < v.length) (hi : i < v.length) :
    (specMaskedLogits v p).getD i 0 = if descBefore v i p then 0 else v.getD i 0 := by
  rw [getD_specMaskedLogits hi]
  by_cases h : descBefore v i p
  · rw [if_pos ((rank_lt_rank_iff hi hp).mpr h), if_pos h]
  · rw [if_neg (fun hc => h ((rank_lt_rank_iff hi hp).mp hc)), if_neg h]

theorem getD_specMasked_self {v : List ℚ} {p : Nat} (hp : p < v.length) :
    (specMaskedLogits v p).getD p 0 = v.getD p 0 := by
  rw [getD_specMasked_before hp hp, if_neg (descBefore_irrefl v p)]

theorem specMasked_idem {v : List ℚ} {p : Nat} (hp : p < v.length) :
    specMaskedLogits (specMaskedLogits v p) p = specMaskedLogits v p := by
  have hlen : (specMaskedLogits v p).length = v.length := length_specMaskedLogits v p
  have hpr : p < (specMaskedLogits v p).length := by rw [hlen]; exact hp
  apply List.ext_getElem
  · rw [length_specMaskedLogits, hlen]
  · intro i h1 h2
    have hir : i < (specMaskedLogits v p).length := by
      rw [length_specMaskedLogits] at h1
      exact h1
    have hiv : i < v.length := by rw [← hlen]; exact hir
    have e1 : (specMaskedLogits (specMaskedLogits v p) p)[i] =
        (specMaskedLogits (specMaskedLogits v p) p).getD i 0 :=
      (List.getD_eq_getElem _ _ h1).symm
    have e2 : (specMaskedLogits v p)[i] = (specMaskedLogits v p).getD i 0 :=
      (List.getD_eq_getElem _ _ h2).symm
    rw [e1, e2, getD_specMasked_before hpr hir]
    have hri : (specMaskedLogits v p).getD i 0 =
        if descBefore v i p then 0 else v.getD i 0 :=
      getD_specMasked_before hp hiv
    have hrp : (specMaskedLogits v p).getD p 0 = v.getD p 0 :=
      getD_specMasked_self hp
    by_cases hb : descBefore v i p
    · have h0 : (specMaskedLogits v p).getD i 0 = 0 := by rw [hri, if_pos hb]
      rw [h0]
      exact ite_self 0
    · have h0 : (specMaskedLogits v p).getD i 0 = v.getD i 0 := by rw [hri, if_neg hb]
      have hnc : ¬ descBefore (specMaskedLogits v p) i p := by
        intro hc
        unfold descBefore at hc hb
        rw [h0, hrp] at hc
        exact hb hc
      rw [if_neg hnc]

theorem convert_error {v : List ℚ} {p : Nat} (hp : v.length ≤ p) :
    convert_spacy_ner_logits_to_valid_logits v p =
      Except.error SpacyMaskError.invalidPredictionError := by
  unfold convert_spacy_ner_logits_to_valid_logits
  rw [if_neg]
  intro hm
  have := mem_descOrder.mp hm
  omega

/-! ## Lemmas about batching -/

theorem chunkBatches_flatten {α : Type} {B : Nat} (hB : 0 < B) (l : List α) :
    (chunkBatches B l).flatten = l := by
  have H : ∀ (n : Nat) (l : List α), l.length ≤ n → (chunkBatches B l).flatten = l := by
    intro n
    induction n with
    | zero =>
      intro l hl
      have he : l = [] := List.eq_nil_of_length_eq_zero (Nat.le_zero.mp hl)
      subst he
      rw [chunkBatches]
      simp [hB.ne']
    | succ n ih =>
      intro l hl
      rw [chunkBatches]
      by_cases he : l.isEmpty
      · simp [hB.ne', he, List.isEmpty_iff.mp he]
      · rw [dif_neg (by simpa using hB.ne'), dif_neg he, List.flatten_cons,
          ih (l.drop B) ?_, List.take_append_drop]
        have h1 : 0 < l.length := by
          cases l with
          | nil => simp at he
          | cons a t => simp
        simp only [List.length_drop]
        omega
  exact H l.length l (Nat.le_refl _)

theorem chunkBatches_batch_bounds {α : Type} {B : Nat} (hB : 0 < B) (l : List α) :
    ∀ b ∈ chunkBatches B l, b ≠ [] ∧ b.length ≤ B := by
  have H : ∀ (n : Nat) (l : List α), l.length ≤ n →
      ∀ b ∈ chunkBatches B l, b ≠ [] ∧ b.length ≤ B := by
    intro n
    induction n with
    | zero =>
      intro l hl b hb
      have he : l = [] := List.eq_nil_of_length_eq_zero (Nat.le_zero.mp hl)
      subst he
      rw [chunkBatches] at hb
      simp [hB.ne'] at hb
    | succ n ih =>
      intro l hl b hb
      rw [chunkBatches] at hb
      by_cases he : l.isEmpty
      · simp [hB.ne', he] at hb
      · rw [dif_neg (by simpa using hB.ne'), dif_neg he] at hb
        have h1 : 0 < l.length := by
          cases l with
          | nil => simp at he
          | cons a t => simp
        rcases List.mem_cons.mp hb with hb | hb
        · subst hb
          refine ⟨?_, ?_⟩
          · rw [Ne, List.take_eq_nil_iff]
            push_neg
            refine ⟨hB.ne', ?_⟩
            cases l with
            | nil => simp at he
            | cons a t => simp
          · rw [List.length_take]
            exact Nat.min_le_left _ _
        · refine ih (l.drop B) ?_ b hb
          simp only [List.length_drop]
          omega
  exact H l.length l (Nat.le_refl _)

theorem chunkBatches_full_batches {α : Type} {B : Nat} (hB : 0 < B) (l : List α) :
    ∀ i : Nat, i + 1 < (chunkBatches B l).length →
      ((chunkBatches B l).getD i []).length = B := by
  have H : ∀ (n : Nat) (l : List α), l.length ≤ n →
      ∀ i : Nat, i + 1 < (chunkBatches B l).length →
        ((chunkBatches B l).getD i []).length = B := by
    intro n
    induction n with
    | zero =>
      intro l hl i hi
      have he : l = [] := List.eq_nil_of_length_eq_zero (Nat.le_zero.mp hl)
      subst he
      rw [chunkBatches] at hi
      simp [hB.ne'] at hi
    | succ n ih =>
      intro l hl i hi
      rw [chunkBatches] at hi ⊢
      by_cases he : l.isEmpty
      · simp [hB.ne', he] at hi
      · rw [dif_neg (by simpa using hB.ne'), dif_neg he] at hi ⊢
        have h1 : 0 < l.length := by
          cases l with
          | nil => simp at he
          | cons a t => simp
        have hd : (l.drop B).length ≤ n := by
          simp only [List.length_drop]
          omega
        cases i with
        | zero =>
          rw [List.getD_cons_zero, List.length_take]
          rw [List.length_cons] at hi
          have hne : chunkBatches B (l.drop B) ≠ [] := by
            intro hc
            rw [hc] at hi
            simp at hi
          have hdne : l.drop B ≠ [] := by
            intro hc
            rw [chunkBatches, hc] at hne
            simp [hB.ne'] at hne
          have : B < l.length := by
            by_contra hc
            push_neg at hc
            exact hdne (List.drop_eq_nil_of_le hc)
          omega
        | succ i =>
          rw [List.getD_cons_succ]
          refine ih (l.drop B) hd i ?_
          rw [List.length_cons] at hi
          omega
  exact H l.length l (Nat.le_refl _)

/-! ## Lemma about prefix-determined reads -/

theorem getD_eq_of_take_eq {α : Type} (d : α) {l1 l2 : List α} {n i : Nat}
    (hi : i < n) (h : l1.take n = l2.take n) : l1.getD i d = l2.getD i d := by
  rw [List.getD_eq_getElem?_getD, List.getD_eq_getElem?_getD,
    ← List.getElem?_take_of_lt (l := l1) (n := n) hi,
    ← List.getElem?_take_of_lt (l := l2) (n := n) hi, h]

/-! ## Claim theorems -/

/-- Claim C1: for every 1-D logit vector and every in-range predicted index,
the masking operation sorts the indices by descending logit value, zeroes
every entry whose position in that ordering is strictly before the predicted
index's position, and keeps the entry at the predicted index and at all later
positions unchanged; in particular masking `[5.0, 3.0, 4.0]` with predicted
index `2` yields `[0.0, 3.0, 4.0]`. -/
theorem claim_C1_mask_zeroes_higher_ranked :
    (∀ v : List ℚ, (descOrder v).Sorted (fun i j => v.getD j 0 ≤ v.getD i 0))
    ∧ (∀ (v : List ℚ) (p : Nat), p < v.length →
        convert_spacy_ner_logits_to_valid_logits v p = Except.ok (specMaskedLogits v p))
    ∧ convert_spacy_ner_logits_to_valid_logits [5, 3, 4] 2 = Except.ok [0, 3, 4] :=
  ⟨descOrder_sorted_values, fun _ _ hp => convert_eq_spec hp, by rfl⟩

theorem claim_C1_mask_zeroes_higher_ranked_witness :
    convert_spacy_ner_logits_to_valid_logits [5, 3, 4] 2 =
      Except.ok (specMaskedLogits [5, 3, 4] 2) :=
  claim_C1_mask_zeroes_higher_ranked.2.1 [5, 3, 4] 2 (by decide)

/-- Claim C2 as stated is false of the code: the operation mutates the
caller's input array in place and returns that same array, so the input is
observed as mutated; on `[5.0, 3.0, 4.0]` with predicted index `2` the
caller's buffer afterwards holds `[0.0, 3.0, 4.0]`, not the original
vector. -/
theorem claim_C2_counterexample :
    logitsBufferAfterCall [5, 3, 4] 2 = [0, 3, 4] ∧
      logitsBufferAfterCall [5, 3, 4] 2 ≠ [5, 3, 4] :=
  ⟨by rfl, by decide⟩

/-- Claim C2 amended: for every input logit vector the caller receives a
same-length vector of the same type, but not a fresh one: the operation masks
the caller's array in place and returns that same array, so after a
successful call the caller's buffer holds exactly the returned vector (and is
observed as mutated whenever masking changes an entry). -/
theorem claim_C2_same_length_in_place :
    ∀ (v : List ℚ) (p : Nat) (r : List ℚ),
      convert_spacy_ner_logits_to_valid_logits v p = Except.ok r →
      r.length = v.length ∧ logitsBufferAfterCall v p = r := by
  intro v p r h
  constructor
  · by_cases hp : p < v.length
    · rw [convert_eq_spec hp] at h
      injection h with h
      rw [← h, length_specMaskedLogits]
    · rw [convert_error (Nat.le_of_not_lt hp)] at h
      simp at h
  · unfold logitsBufferAfterCall
    rw [h]

theorem claim_C2_same_length_in_place_witness :
    ([0, 3, 4] : List ℚ).length = ([5, 3, 4] : List ℚ).length ∧
      logitsBufferAfterCall [5, 3, 4] 2 = [0, 3, 4] :=
  claim_C2_same_length_in_place [5, 3, 4] 2 [0, 3, 4] (by rfl)

/-- Claim C3: the masking operation succeeds for every valid predicted index
and fails with `InvalidPredictionError` for every predicted index that is not
a valid index into the vector. -/
theorem claim_C3_invalid_prediction_error :
    ∀ (v : List ℚ) (p : Nat),
      (p < v.length →
        ∃ r, convert_spacy_ner_logits_to_valid_logits v p = Except.ok r)
      ∧ (v.length ≤ p → convert_spacy_ner_logits_to_valid_logits v p =
          Except.error SpacyMaskError.invalidPredictionError) :=
  fun v p =>
    ⟨fun hp => ⟨specMaskedLogits v p, convert_eq_spec hp⟩,
     fun hp => convert_error hp⟩

theorem claim_C3_invalid_prediction_error_witness :
    (∃ r, convert_spacy_ner_logits_to_valid_logits [5, 3, 4] 2 = Except.ok r)
    ∧ convert_spacy_ner_logits_to_valid_logits [5, 3, 4] 5 =
        Except.error SpacyMaskError.invalidPredictionError :=
  ⟨(claim_C3_invalid_prediction_error [5, 3, 4] 2).1 (by decide),
   (claim_C3_invalid_prediction_error [5, 3, 4] 5).2 (by decide)⟩

/-- Claim C4: applying the masking operation twice with the same in-range
predicted index gives the same result as applying it once. -/
theorem claim_C4_mask_idempotent :
    ∀ (v : List ℚ) (p : Nat), p < v.length →
      (convert_spacy_ner_logits_to_valid_logits v p).bind
          (fun r => convert_spacy_ner_logits_to_valid_logits r p) =
        convert_spacy_ner_logits_to_valid_logits v p := by
  intro v p hp
  rw [convert_eq_spec hp]
  show convert_spacy_ner_logits_to_valid_logits (specMaskedLogits v p) p =
    Except.ok (specMaskedLogits v p)
  rw [convert_eq_spec (by rw [length_specMaskedLogits]; exact hp),
    specMasked_idem hp]

theorem claim_C4_mask_idempotent_witness :
    (convert_spacy_ner_logits_to_valid_logits [5, 3, 4] 2).bind
        (fun r => convert_spacy_ner_logits_to_valid_logits r 2) =
      convert_spacy_ner_logits_to_valid_logits [5, 3, 4] 2 :=
  claim_C4_mask_idempotent [5, 3, 4] 2 (by decide)

/-- Claim C5: for every row with true token length `n` and a logits tensor
whose sequence dimension exceeds `n`, the Token Probability Extractor emits
exactly `n` per-token log-probabilities and exactly `n` top-K candidate lists
for that row, and positions at or beyond `n` never appear in the output: any
two row logits agreeing on the first `n` positions yield the same output. -/
theorem claim_C5_padding_exclusion :
    ∀ (logSoftmax : List ℚ → List ℚ) (topK : List ℚ → List (String × ℚ))
      (rowLogits : List (List ℚ)) (tokenIds : List Nat),
      tokenIds.length < rowLogits.length →
      (extractTokenProbsRow logSoftmax topK rowLogits tokenIds).token_logprobs.length
          = tokenIds.length
      ∧ (extractTokenProbsRow logSoftmax topK rowLogits tokenIds).top_logprobs.length
          = tokenIds.length
      ∧ ∀ rowLogits2 : List (List ℚ),
          rowLogits2.take tokenIds.length = rowLogits.take tokenIds.length →
          extractTokenProbsRow logSoftmax topK rowLogits2 tokenIds =
            extractTokenProbsRow logSoftmax topK rowLogits tokenIds := by
  intro lsm tk rowLogits tokenIds _
  refine ⟨by simp [extractTokenProbsRow], by simp [extractTokenProbsRow], ?_⟩
  intro rl2 htake
  have hgetD : ∀ pos, pos < tokenIds.length → rl2.getD pos [] = rowLogits.getD pos [] :=
    fun pos hpos => getD_eq_of_take_eq [] hpos htake
  simp only [extractTokenProbsRow, TokenProbRow.mk.injEq]
  constructor
  · apply List.map_congr_left
    intro pos hpos
    rw [hgetD pos (List.mem_range.mp hpos)]
  · apply List.map_congr_left
    intro pos hpos
    rw [hgetD pos (List.mem_range.mp hpos)]

theorem claim_C5_padding_exclusion_witness :
    (extractTokenProbsRow (fun l => l) (fun _ => []) [[1], [2]] [0]).token_logprobs.length
        = 1
    ∧ extractTokenProbsRow (fun l => l) (fun _ => []) [[1], [5]] [0] =
        extractTokenProbsRow (fun l => l) (fun _ => []) [[1], [2]] [0] :=
  ⟨(claim_C5_padding_exclusion (fun l => l) (fun _ => []) [[1], [2]] [0]
      (by decide)).1,
   (claim_C5_padding_exclusion (fun l => l) (fun _ => []) [[1], [2]] [0]
      (by decide)).2.2 [[1], [5]] (by decide)⟩

/-- Claim C6: the Batched Generation Driver partitions the input rows into
contiguous batches of size `B` — every batch except possibly the last has
exactly `B` rows, no batch is empty or exceeds `B`, and concatenating the
batches in order restores the input — processes them sequentially, and for a
generation capability producing one output row per input row it returns
exactly `N` result rows whose order matches the input order. -/
theorem claim_C6_order_preservation :
    ∀ {α β : Type} (g : α → β) (B : Nat) (rows : List α), 0 < B →
      (chunkBatches B rows).flatten = rows
      ∧ (∀ b ∈ chunkBatches B rows, b ≠ [] ∧ b.length ≤ B)
      ∧ (∀ i : Nat, i + 1 < (chunkBatches B rows).length →
          ((chunkBatches B rows).getD i []).length = B)
      ∧ batchedGenerationDriver (List.map g) B rows = rows.map g
      ∧ (batchedGenerationDriver (List.map g) B rows).length = rows.length := by
  intro α β g B rows hB
  have hflat := chunkBatches_flatten hB rows
  have hdrv : batchedGenerationDriver (List.map g) B rows = rows.map g := by
    unfold batchedGenerationDriver
    rw [← List.map_flatten, hflat]
  exact ⟨hflat, chunkBatches_batch_bounds hB rows,
    chunkBatches_full_batches hB rows, hdrv, by rw [hdrv, List.length_map]⟩

theorem claim_C6_order_preservation_witness :
    (chunkBatches 2 [10, 20, 30]).flatten = [10, 20, 30]
    ∧ batchedGenerationDriver (List.map Nat.succ) 2 [10, 20, 30] =
        List.map Nat.succ [10, 20, 30] :=
  ⟨(claim_C6_order_preservation Nat.succ 2 [10, 20, 30] (by decide)).1,
   (claim_C6_order_preservation Nat.succ 2 [10, 20, 30] (by decide)).2.2.2.1⟩

/-- Claim C7: the Tagging Scheme Codec supports exactly the three schemes BIO,
BILOU and BIOES — each scheme value round-trips through lookup — and for any
scheme value outside these three the lookup fails with
`UnsupportedSchemeError`. -/
theorem claim_C7_supported_schemes :
    (∀ t : TaggingSchema, t = TaggingSchema.BIO ∨ t = TaggingSchema.BILOU ∨
        t = TaggingSchema.BIOES)
    ∧ (∀ t : TaggingSchema, TaggingSchema.ofValue t.value = Except.ok t)
    ∧ (∀ s : String, TaggingSchema.ofValue s =
          Except.error SchemeError.unsupportedSchemeError ↔
        (s ≠ "BIO" ∧ s ≠ "BILOU" ∧ s ≠ "BIOES")) := by
  refine ⟨fun t => by cases t <;> simp, fun t => by cases t <;> rfl, fun s => ?_⟩
  unfold TaggingSchema.ofValue
  by_cases h1 : s = "BIO"
  · simp [h1]
  · by_cases h2 : s = "BILOU"
    · simp [h1, h2]
    · by_cases h3 : s = "BIOES"
      · simp [h1, h2, h3]
      · simp [h1, h2, h3]

/-- Claim C8: every span error record carries an error type that is exactly
one of the five fixed taxonomy values `wrong_tag`, `missed_label`,
`span_shift`, `ghost_span`, `none`, where `none` (string value `"None"`)
denotes a correct, error-free prediction span. -/
theorem claim_C8_error_taxonomy :
    (∀ r : SpanErrorRecord,
        r.galileo_error_type = NERErrorType.wrong_tag ∨
        r.galileo_error_type = NERErrorType.missed_label ∨
        r.galileo_error_type = NERErrorType.span_shift ∨
        r.galileo_error_type = NERErrorType.ghost_span ∨
        r.galileo_error_type = NERErrorType.none)
    ∧ NERErrorType.none.value = "None"
    ∧ [NERErrorType.wrong_tag.value, NERErrorType.missed_label.value,
        NERErrorType.span_shift.value, NERErrorType.ghost_span.value,
        NERErrorType.none.value] =
      ["wrong_tag", "missed_label", "span_shift", "ghost_span", "None"] := by
  refine ⟨fun r => ?_, rfl, rfl⟩
  generalize r.galileo_error_type = e
  cases e <;> simp

/-- Claim C9: every attribute assignment on a text-classification model
logger object — not only at construction, since Python routes every
assignment through `__setattr__` — fails with `AttributeError` exactly when
the key is outside the fixed valid-attribute list `embs, probs, logits, ids,
split, epoch, inference_name`, and succeeds (binding the value) for every key
in that list. -/
theorem claim_C9_setattr_validation :
    ∀ {V : Type} (state : List (String × V)) (key : String) (value : V),
      (setattrTextClassification state key value =
          Except.error AttrSetError.attributeError ↔
        key ∉ (["embs", "probs", "logits", "ids", "split", "epoch",
          "inference_name"] : List String))
      ∧ (key ∈ (["embs", "probs", "logits", "ids", "split", "epoch",
          "inference_name"] : List String) →
          setattrTextClassification state key value =
            Except.ok ((key, value) :: state)) := by
  intro V st k val
  unfold setattrTextClassification get_valid_attributes
  by_cases h : k ∈ (["embs", "probs", "logits", "ids", "split", "epoch",
      "inference_name"] : List String)
  · simp [h]
  · simp [h]

theorem claim_C9_setattr_validation_witness :
    setattrTextClassification ([] : List (String × Nat)) "embs" 7 =
        Except.ok [("embs", 7)]
    ∧ setattrTextClassification ([] : List (String × Nat)) "foo" 7 =
        Except.error AttrSetError.attributeError :=
  ⟨(claim_C9_setattr_validation [] "embs" 7).2 (by decide),
   (claim_C9_setattr_validation [] "foo" 7).1.mpr (by decide)⟩

/-- Claim C10: when the text-classification logger builds its output records,
a row whose probability vector has exactly one element is expanded to the
two-class vector `[p, 1 - p]`, but the emitted `pred` field is the argmax of
the original one-element vector, hence always `0` regardless of the
probability value. -/
theorem claim_C10_binary_pred_zero :
    ∀ (record_id epoch : Nat) (split : String) (prob emb : List ℚ),
      prob.length = 1 →
      (tcDataRecord record_id epoch split prob emb).prob =
          [prob.getD 0 0, 1 - prob.getD 0 0]
      ∧ (tcDataRecord record_id epoch split prob emb).pred = 0 := by
  intro record_id epoch sp prob emb h
  obtain ⟨a, rfl⟩ := List.length_eq_one.mp h
  refine ⟨rfl, ?_⟩
  simp [tcDataRecord, npArgmax, List.range_succ]

theorem claim_C10_binary_pred_zero_witness :
    (tcDataRecord 1 0 "training" [9 / 10] [1]).prob = [9 / 10, 1 - 9 / 10]
    ∧ (tcDataRecord 1 0 "training" [9 / 10] [1]).pred = 0 := by
  have h := claim_C10_binary_pred_zero 1 0 "training" [9 / 10] [1] (by decide)
  exact ⟨h.1, h.2⟩

end DataQuality
